import Mathlib

/-!
Verification of the caching, clip-extraction and augmentation pipeline of
`classification/dataset.py` (class `PyhaDF_Dataset` and `get_datasets`).

Embedding conventions:
* Audio sample values, probabilities, offsets and durations are modelled as
  exact rationals (`ℚ`).  The Python floats have no NaN counterpart here, so
  the `image.isnan().any()` retry branch of `__getitem__` is unreachable in
  this embedding and is omitted.
* The cache directory (the only filesystem state the pipeline reads and
  writes) is modelled as a partial map from path strings to stored waveforms.
* External collaborators (`torchaudio.load`, `audtr.Resample`, the mel
  spectrogram and the two masking transforms) are parameters of the
  definitions that call them.
* Sources of randomness drawn inside `__getitem__` are passed explicitly in a
  `Draws` record, one field per draw site.
-/

/-- Configuration bundle: the fields of `config` read by the pipeline. -/
structure Config where
  sample_rate : ℕ
  max_time : ℕ
  cache_path : String
  time_shift_p : ℚ
  noise_p : ℚ
  noise_std : ℚ
  mix_p : ℚ
  freq_mask_p : ℚ
  time_mask_p : ℚ

/-- `num_samples = self.target_sample_rate * CONFIG.max_time` (line 53). -/
def numSamples (cfg : Config) : ℕ := cfg.sample_rate * cfg.max_time

/-- One manifest row: file reference, species label, offset and duration
(columns `file_path_col`, `manual_id_col`, `offset_col`, `duration_col`). -/
structure Row where
  file : String
  species : String
  offset : ℚ
  duration : ℚ
deriving DecidableEq

/-- A sample row after `serialize_data`: the original row plus the resolved
`.pt` path substituted into the file-path column (lines 167-172; the merged
frame keeps the original reference in its `IN FILE` column). -/
structure SRow where
  orig : Row
  file : String
deriving DecidableEq

/-- Cache-directory state: path contents, `none` when the path is absent. -/
abbrev FS := String → Option (List ℚ)

/-- Split a character list at every occurrence of `sep`, accumulator form.
Models Python `str.split(sep)` for a one-character separator. -/
def splitOnChar (sep : Char) : List Char → List Char → List (List Char)
  | [], cur => [cur.reverse]
  | c :: cs, cur =>
    if c = sep then cur.reverse :: splitOnChar sep cs []
    else splitOnChar sep cs (c :: cur)

/-- Fuel-indexed left-to-right replacement of every non-overlapping occurrence
of `pat`; models Python `str.replace` for a non-empty pattern. -/
def replaceAllF (pat rep : List Char) : ℕ → List Char → List Char
  | 0, s => s
  | _ + 1, [] => []
  | n + 1, c :: cs =>
    if pat.isPrefixOf (c :: cs) then rep ++ replaceAllF pat rep n ((c :: cs).drop pat.length)
    else c :: replaceAllF pat rep n cs

/-- Replace every occurrence of `pat` by `rep` in `s`. -/
def replaceAll (pat rep s : List Char) : List Char := replaceAllF pat rep s.length s

/-- Derived canonical-cache path (lines 99-100):
`exts = "." + path.split(".")[-1]; new_path = path.replace(exts, ".pt")`. -/
def derivedPt (path : String) : String :=
  let ext := '.' :: ((splitOnChar '.' path.data []).getLastD [])
  ⟨replaceAll ext ".pt".data path.data⟩

/-- First-occurrence deduplication step used to model `pandas.Series.unique`. -/
def ufStep {α : Type} [DecidableEq α] (acc : List α) (x : α) : List α :=
  if x ∈ acc then acc else acc ++ [x]

/-- `pandas.Series.unique`: distinct values in order of first appearance. -/
def uniqueFirst {α : Type} [DecidableEq α] (l : List α) : List α :=
  l.foldl ufStep []

/-- Value equality between a string and a boolean, as `pandas.isin` compares
values of different dynamic types: a string never equals a boolean. -/
def strEqBool (_ : String) (_ : Bool) : Bool := false

/-- `verify_audio` (lines 83-92), translated exactly: `test_df` is the series
of existence booleans; `missing_files = test_df[~test_df].unique()` therefore
holds BOOLEANS (the `False` values), not paths, and the final
`isin(missing_files)` compares each path against those booleans. -/
def verify_audio (exists_ : String → Bool) (rows : List Row) : List Row :=
  let test_df : List Bool := (uniqueFirst (rows.map Row.file)).map exists_
  let missing_files : List Bool := uniqueFirst (test_df.filter (fun b => !b))
  rows.filter (fun r => !(missing_files.any (fun b => strEqBool r.file b)))

/-- Count printed by `verify_audio` line 89: `missing_files.shape[0]`. -/
def verifyLoggedCount (exists_ : String → Bool) (rows : List Row) : ℕ :=
  let test_df : List Bool := (uniqueFirst (rows.map Row.file)).map exists_
  (uniqueFirst (test_df.filter (fun b => !b))).length

/-- Result of `torchaudio.load`: either an already one-dimensional waveform or
a channels-by-frames matrix (`len(audio.shape) > 1`). -/
inductive Wave where
  | one (a : List ℚ)
  | two (chs : List (List ℚ))

/-- `to_mono` (lines 308-311): `torch.mean(audio, axis=0)` on a
channels-by-frames matrix, producing a one-dimensional waveform. -/
def to_mono (chs : List (List ℚ)) : List ℚ :=
  match chs with
  | [] => []
  | ch0 :: _ =>
      (List.range ch0.length).map
        (fun t => (chs.map (fun ch => ch.getD t 0)).sum / (chs.length : ℚ))

/-- `process_audio_file` (lines 94-138).  Returns the `(IN FILE, files)` pair
and the updated cache state.  `load` models `torchaudio.load` (`none` is any
failure inside the `try` block), `resample` models `audtr.Resample`. -/
def process_audio_file (load : String → Option (Wave × ℕ))
    (resample : ℕ → ℕ → List ℚ → List ℚ) (sr : ℕ)
    (fs : FS) (path : String) : (String × String) × FS :=
  let new_path := derivedPt path
  if (fs new_path).isSome then ((path, new_path), fs)
  else
    match load path with
    | none => ((path, "bad"), fs)
    | some (w, rate) =>
        let audio := match w with
          | .two chs => to_mono chs
          | .one a => a
        let audio := if rate ≠ sr then resample rate sr audio else audio
        ((path, new_path), fun q => if q = new_path then some audio else fs q)

/-- Sequential `progress_apply` of `process_audio_file` over the distinct file
references (line 152), threading the cache state. -/
def procAll (load : String → Option (Wave × ℕ))
    (resample : ℕ → ℕ → List ℚ → List ℚ) (sr : ℕ) :
    List String → FS → List (String × String) × FS
  | [], fs => ([], fs)
  | q :: qs, fs =>
    let r := process_audio_file load resample sr fs q
    let rest := procAll load resample sr qs r.2
    (r.1 :: rest.1, rest.2)

/-- `serialize_data` (lines 141-175): verify, convert each distinct reference,
raise `FileNotFoundError` when `num_files == 0` (a count taken BEFORE the
`"bad"` filter), then drop `"bad"` references by left-join-and-`dropna` and
substitute the `.pt` paths into the file-path column. -/
def serialize_data (exists_ : String → Bool) (load : String → Option (Wave × ℕ))
    (resample : ℕ → ℕ → List ℚ → List ℚ) (sr : ℕ)
    (rows : List Row) (fs : FS) : Except String (List SRow × FS) :=
  let rows1 := verify_audio exists_ rows
  let files := uniqueFirst (rows1.map Row.file)
  let pr := procAll load resample sr files fs
  if pr.1.length = 0 then .error "There were no valid filepaths found, check csv"
  else
    let good := pr.1.filter (fun r => r.2 != "bad")
    .ok (rows1.filterMap (fun r =>
      (good.find? (fun g => g.1 == r.file)).map (fun g => SRow.mk r g.2)), pr.2)

/-- Rows surviving `serialize_data`, discarding the cache state. -/
def outRows (x : Except String (List SRow × FS)) : Option (List SRow) :=
  match x with
  | .ok (l, _) => some l
  | .error _ => none

/-- Python `int()` of a rational: truncation toward zero. -/
def pyInt (q : ℚ) : ℤ := Int.tdiv q.num q.den

/-- `crop_audio` (lines 303-306): `audio[:self.num_samples]`. -/
def crop_audio (ns : ℕ) (audio : List ℚ) : List ℚ := audio.take ns

/-- `pad_audio` (lines 295-301): trailing zero padding up to `num_samples`. -/
def pad_audio (ns : ℕ) (audio : List ℚ) : List ℚ :=
  audio ++ List.replicate (ns - audio.length) 0

/-- Core of `extract_clip_and_cache` (lines 232-242): slice only when
`audio.shape[0] > num_frames`, then crop if too long, pad if too short. -/
def extract_clip (ns : ℕ) (audio : List ℚ) (frame_offset num_frames : ℕ) : List ℚ :=
  let a := if num_frames < audio.length
    then (audio.drop frame_offset).take num_frames else audio
  let b := if ns < a.length then crop_audio ns a else a
  if b.length < ns then pad_audio ns b else b

/-- `extract_clip_and_cache` (lines 219-245): read the annotation, convert
offset/duration seconds to sample counts with `int(...)`, load the canonical
waveform, slice/crop/pad, save at `cache`, return the clip. -/
def extract_clip_and_cache (cfg : Config) (samples : List SRow) (fs : FS)
    (index : ℕ) (cache : String) : Except String (List ℚ × FS) :=
  match samples[index]? with
  | none => .error "IndexError"
  | some s =>
    let frame_offset := (pyInt (s.orig.offset * (cfg.sample_rate : ℚ))).toNat
    let num_frames := (pyInt (s.orig.duration * (cfg.sample_rate : ℚ))).toNat
    match fs s.file with
    | none => .error "torch.load: no such file"
    | some audio =>
      let clip := extract_clip (numSamples cfg) audio frame_offset num_frames
      .ok (clip, fun p => if p = cache then some clip else fs p)

/-- The inner `one_hot` of `get_clip` (lines 191-197): a vector of dimension
`num_classes` holding `on_value` 1 at the class index and `off_value` 0
elsewhere. -/
def oneHot (idx n : ℕ) : List ℚ :=
  (List.range n).map (fun j => if j = idx then 1 else 0)

/-- Deterministic string form of a rational, used in the clip cache key. -/
def ratStr (q : ℚ) : String := toString q.num ++ "/" ++ toString q.den

/-- Clip cache key (lines 183-186): cache dir, base file name without its
extension, the offset value, `.pt`. -/
def cachePathFor (cfg : Config) (s : SRow) : String :=
  let base := (splitOnChar '/' s.file.data []).getLastD []
  let stem : List Char := List.intercalate ['.'] ((splitOnChar '.' base []).dropLast)
  cfg.cache_path ++ "/" ++ ⟨stem⟩ ++ ratStr s.orig.offset ++ ".pt"

/-- `get_clip` (lines 177-217): one-hot label from the class index, then the
cached clip when the clip cache key is present, else a fresh extraction
(whose failure surfaces as the `RuntimeError` with message `Bad Audio`). -/
def get_clip (cfg : Config) (classToIdx : List (String × ℕ)) (numClasses : ℕ)
    (samples : List SRow) (fs : FS) (index : ℕ) :
    Except String ((List ℚ × List ℚ) × FS) :=
  match samples[index]? with
  | none => .error "IndexError"
  | some s =>
    match List.lookup s.orig.species classToIdx with
    | none => .error "KeyError"
    | some idx =>
      let target := oneHot idx numClasses
      let cache := cachePathFor cfg s
      match fs cache with
      | some audio => .ok ((audio, target), fs)
      | none =>
        match extract_clip_and_cache cfg samples fs index cache with
        | .error _ => .error "Bad Audio"
        | .ok (clip, fs1) => .ok ((clip, target), fs1)

/-- `torch.roll(input, shift, dims)` on a ONE-dimensional tensor (which is
what `get_clip` returns): the only valid dimension arguments are `-1` and
`0`; any other raises a dimension-out-of-range error. -/
def torchRoll (audio : List ℚ) (shift : ℕ) (dim : ℤ) : Except String (List ℚ) :=
  if -1 ≤ dim ∧ dim ≤ 0 then
    .ok (audio.rotate (audio.length - shift % (max audio.length 1)))
  else .error "Dimension out of range"

/-- The time-shift step of `__getitem__` line 259, exactly as written:
`torch.roll(audio, shift, dims=1)`. -/
def timeShift (audio : List ℚ) (shift : ℕ) : Except String (List ℚ) :=
  torchRoll audio shift 1

/-- Elementwise `v1 * alpha + v2 * (1 - alpha)` (lines 268-269). -/
def mixVec (alpha : ℚ) (v1 v2 : List ℚ) : List ℚ :=
  List.zipWith (fun a b => a * alpha + b * (1 - alpha)) v1 v2

/-- Mixup coefficient (line 267): `np.random.rand() * 0.3 + 0.1` for a
uniform draw `u` in `[0, 1)`. -/
def alphaOf (u : ℚ) : ℚ := u * (3 / 10) + 1 / 10

/-- A rendered image: three channels of a mel-bins-by-frames matrix. -/
abbrev Image := List (List (List ℚ))

/-- `torch.abs(image).max()` folded over every entry (with 0 for the empty
tensor). -/
def maxAbs (image : Image) : ℚ :=
  image.foldl (fun m ch => ch.foldl (fun m row => row.foldl (fun m x => max m |x|) m) m) 0

/-- Image normalization (lines 277-279): divide by `max(|image|) + 1e-6`. -/
def normalizeImage (image : Image) : Image :=
  let mx := maxAbs image + 1 / 1000000
  image.map (fun ch => ch.map (fun row => row.map (fun x => x / mx)))

/-- Lines 271-279: mel spectrogram, stack into 3 channels, normalize. -/
def renderImage (mel : List ℚ → List (List ℚ)) (audio : List ℚ) : Image :=
  normalizeImage [mel audio, mel audio, mel audio]

/-- One value per random draw site of `__getitem__`: the five gate draws, the
shift amount, the noise tensor, the mixup partner index and coefficient draw,
and the two (randomized) masking transforms. -/
structure Draws where
  shiftGate : ℚ
  shiftAmt : ℕ
  noiseGate : ℚ
  noiseAt : ℕ → ℚ
  mixGate : ℚ
  mixIdx : ℕ
  alphaU : ℚ
  freqGate : ℚ
  freqMaskT : Image → Image
  timeGate : ℚ
  timeMaskT : Image → Image

/-- `__getitem__` (lines 250-293): clip fetch, the three waveform transforms
(each gated on `self.train` and a draw), spectrogram rendering and
normalization, then the two gated image maskings.  The NaN-retry branch is
unreachable over exact rationals and is omitted. -/
def getItem (cfg : Config) (mel : List ℚ → List (List ℚ))
    (classToIdx : List (String × ℕ)) (numClasses : ℕ) (samples : List SRow)
    (fs : FS) (train : Bool) (d : Draws) (index : ℕ) :
    Except String ((Image × List ℚ) × FS) := do
  let ((audio0, target0), fs1) ← get_clip cfg classToIdx numClasses samples fs index
  let audio1 ← if train = true ∧ d.shiftGate < cfg.time_shift_p
    then timeShift audio0 d.shiftAmt else .ok audio0
  let audio2 := if train = true ∧ d.noiseGate < cfg.noise_p
    then List.zipWith (fun a b => a + b) audio1
      ((List.range audio1.length).map (fun k => d.noiseAt k * cfg.noise_std))
    else audio1
  let (audio3, target3, fs3) ←
    if train = true ∧ d.mixGate < cfg.mix_p then do
      let ((audio_2, target_2), fs2) ←
        get_clip cfg classToIdx numClasses samples fs1 d.mixIdx
      let alpha := alphaOf d.alphaU
      pure (mixVec alpha audio2 audio_2, mixVec alpha target0 target_2, fs2)
    else pure (audio2, target0, fs1)
  let image0 := renderImage mel audio3
  let image1 := if train = true ∧ d.freqGate < cfg.freq_mask_p
    then d.freqMaskT image0 else image0
  let image2 := if train = true ∧ d.timeGate < cfg.time_mask_p
    then d.timeMaskT image1 else image1
  pure ((image2, target3), fs3)

/-- The class list and class-to-index mapping of `__init__` (lines 73-78):
reuse the `species` argument when given, else build from the distinct species
labels with `np.arange`-style indices. -/
def datasetClasses (species : Option (List String × List (String × ℕ)))
    (rows : List Row) : List String × List (String × ℕ) :=
  match species with
  | some s => s
  | none =>
    let classes := uniqueFirst (rows.map Row.species)
    (classes, classes.zip (List.range classes.length))

/-- Clip component of an `extract_clip_and_cache` result. -/
def okClip (x : Except String (List ℚ × FS)) : Option (List ℚ) :=
  match x with
  | .ok (c, _) => some c
  | .error _ => none

/-- Content stored at `path` in the cache state left by a successful
`extract_clip_and_cache` run. -/
def cacheAfter (x : Except String (List ℚ × FS)) (path : String) : Option (List ℚ) :=
  match x with
  | .ok (_, f) => f path
  | .error _ => none

/-- The `(waveform, label)` pair of a successful `get_clip`. -/
def okItem (x : Except String ((List ℚ × List ℚ) × FS)) : Option (List ℚ × List ℚ) :=
  match x with
  | .ok (it, _) => some it
  | .error _ => none

/-! ### Helper lemmas -/

lemma extract_clip_length (ns : ℕ) (audio : List ℚ) (fo nf : ℕ) :
    (extract_clip ns audio fo nf).length = ns := by
  unfold extract_clip crop_audio pad_audio
  dsimp only
  split_ifs <;>
    simp_all [List.length_take, List.length_drop, List.length_append,
      List.length_replicate] <;> omega

lemma extract_ok (cfg : Config) (samples : List SRow) (fs : FS) (index : ℕ)
    (cache : String) (clip : List ℚ) (fs1 : FS)
    (h : extract_clip_and_cache cfg samples fs index cache = .ok (clip, fs1)) :
    clip.length = numSamples cfg ∧ fs1 cache = some clip := by
  unfold extract_clip_and_cache at h
  cases hs : samples[index]? with
  | none => simp only [hs] at h; exact absurd h (by simp)
  | some s =>
    simp only [hs] at h
    cases ha : fs s.file with
    | none => simp only [ha] at h; exact absurd h (by simp)
    | some audio =>
      simp only [ha, Except.ok.injEq, Prod.mk.injEq] at h
      obtain ⟨hc, hf⟩ := h
      subst hc
      refine ⟨extract_clip_length _ _ _ _, ?_⟩
      rw [← hf]
      simp

lemma foldl_ufStep_mem {α : Type} [DecidableEq α] (l : List α) :
    ∀ (acc : List α) (a : α), a ∈ l.foldl ufStep acc ↔ a ∈ acc ∨ a ∈ l := by
  induction l with
  | nil => simp
  | cons x xs ih =>
    intro acc a
    rw [List.foldl_cons, ih]
    unfold ufStep
    by_cases h : x ∈ acc
    · simp only [h, if_true, List.mem_cons]
      constructor
      · rintro (h1 | h1)
        · exact Or.inl h1
        · exact Or.inr (Or.inr h1)
      · rintro (h1 | rfl | h1)
        · exact Or.inl h1
        · exact Or.inl h
        · exact Or.inr h1
    · simp only [h, if_false, List.mem_append, List.mem_singleton, List.mem_cons]
      tauto

lemma foldl_ufStep_nodup {α : Type} [DecidableEq α] (l : List α) :
    ∀ acc : List α, acc.Nodup → (l.foldl ufStep acc).Nodup := by
  induction l with
  | nil => intro acc h; simpa
  | cons x xs ih =>
    intro acc h
    rw [List.foldl_cons]
    apply ih
    unfold ufStep
    split_ifs with hx
    · exact h
    · rw [← List.concat_eq_append]
      exact h.concat hx

lemma uniqueFirst_mem {α : Type} [DecidableEq α] (l : List α) (a : α) :
    a ∈ uniqueFirst l ↔ a ∈ l := by
  simpa [uniqueFirst] using foldl_ufStep_mem l [] a

lemma uniqueFirst_nodup {α : Type} [DecidableEq α] (l : List α) :
    (uniqueFirst l).Nodup :=
  foldl_ufStep_nodup l [] (by simp)

lemma uniqueFirst_eq_nil {α : Type} [DecidableEq α] (l : List α) :
    uniqueFirst l = [] ↔ l = [] := by
  constructor
  · intro h
    cases l with
    | nil => rfl
    | cons x xs =>
      have hx : x ∈ uniqueFirst (x :: xs) := (uniqueFirst_mem _ _).mpr (by simp)
      rw [h] at hx
      exact absurd hx (by simp)
  · rintro rfl; rfl

lemma oneHot_length (idx n : ℕ) : (oneHot idx n).length = n := by
  simp [oneHot]

lemma oneHot_nonneg (idx n : ℕ) : ∀ x ∈ oneHot idx n, 0 ≤ x := by
  intro x hx
  simp only [oneHot, List.mem_map, List.mem_range] at hx
  obtain ⟨j, _, rfl⟩ := hx
  split_ifs <;> norm_num

lemma oneHot_sum_of_le (idx n : ℕ) (h : n ≤ idx) : (oneHot idx n).sum = 0 := by
  induction n with
  | zero => rfl
  | succ m ih =>
    rw [oneHot, List.range_succ, List.map_append, List.sum_append]
    have hm : m ≠ idx := by omega
    have := ih (by omega)
    rw [oneHot] at this
    simp [this, hm]

lemma oneHot_sum (idx n : ℕ) (h : idx < n) : (oneHot idx n).sum = 1 := by
  induction n with
  | zero => omega
  | succ m ih =>
    rw [oneHot, List.range_succ, List.map_append, List.sum_append]
    by_cases hm : idx < m
    · have := ih hm
      rw [oneHot] at this
      have hne : m ≠ idx := by omega
      simp [this, hne]
    · have hidx : idx = m := by omega
      subst hidx
      have h0 := oneHot_sum_of_le idx idx le_rfl
      rw [oneHot] at h0
      simp [h0]

lemma mixVec_sum (alpha : ℚ) :
    ∀ v1 v2 : List ℚ, v1.length = v2.length →
      (mixVec alpha v1 v2).sum = alpha * v1.sum + (1 - alpha) * v2.sum := by
  intro v1
  induction v1 with
  | nil =>
    intro v2 h
    cases v2 with
    | nil => simp [mixVec]
    | cons b bs => simp at h
  | cons a as ih =>
    intro v2 h
    cases v2 with
    | nil => simp at h
    | cons b bs =>
      simp only [mixVec, List.zipWith_cons_cons, List.sum_cons] at *
      rw [ih bs (by simpa using h)]
      ring

lemma mixVec_mem (alpha : ℚ) :
    ∀ v1 v2 : List ℚ, ∀ x ∈ mixVec alpha v1 v2,
      ∃ a b, a ∈ v1 ∧ b ∈ v2 ∧ x = a * alpha + b * (1 - alpha) := by
  intro v1
  induction v1 with
  | nil => intro v2 x hx; simp [mixVec] at hx
  | cons a as ih =>
    intro v2 x hx
    cases v2 with
    | nil => simp [mixVec] at hx
    | cons b bs =>
      simp only [mixVec, List.zipWith_cons_cons, List.mem_cons] at hx
      rcases hx with rfl | hx
      · exact ⟨a, b, by simp⟩
      · obtain ⟨a2, b2, ha2, hb2, rfl⟩ := ih bs x hx
        exact ⟨a2, b2, by simp [ha2], by simp [hb2], rfl⟩

lemma extract_clip_getElem (ns : ℕ) (audio : List ℚ) (fo nf j : ℕ)
    (h1 : nf < audio.length) (h2 : j < nf) (h3 : fo + j < audio.length)
    (h4 : j < ns) :
    (extract_clip ns audio fo nf)[j]? = audio[fo + j]? := by
  unfold extract_clip crop_audio pad_audio
  have hlt : j < ((audio.drop fo).take nf).length := by
    simp [List.length_take, List.length_drop]
    omega
  have hget : ((audio.drop fo).take nf)[j]? = audio[fo + j]? := by
    rw [List.getElem?_take, if_pos h2, List.getElem?_drop]
  dsimp only
  rw [if_pos h1]
  split_ifs with hc hp hp
  · rw [List.getElem?_append, List.length_take, List.length_take]
    have : j < (List.take ns (audio.drop fo |>.take nf)).length := by
      simp [List.length_take, List.length_drop]; omega
    rw [if_pos (by simp [List.length_take, List.length_drop] at this ⊢; omega)]
    rw [List.getElem?_take, if_pos h4, hget]
  · rw [List.getElem?_take, if_pos h4, hget]
  · rw [List.getElem?_append, if_pos hlt, hget]
  · exact hget

lemma verify_audio_eq (exists_ : String → Bool) (rows : List Row) :
    verify_audio exists_ rows = rows := by
  simp [verify_audio, strEqBool]

lemma process_audio_file_fst (load : String → Option (Wave × ℕ))
    (resample : ℕ → ℕ → List ℚ → List ℚ) (sr : ℕ) (fs : FS) (path : String) :
    (process_audio_file load resample sr fs path).1.1 = path := by
  unfold process_audio_file
  dsimp only
  split_ifs with h
  · rfl
  · cases hl : load path with
    | none => rfl
    | some w => obtain ⟨w, rate⟩ := w; rfl

lemma process_audio_file_cached (load : String → Option (Wave × ℕ))
    (resample : ℕ → ℕ → List ℚ → List ℚ) (sr : ℕ) (fs : FS) (path : String)
    (h : (fs (derivedPt path)).isSome = true) :
    process_audio_file load resample sr fs path = ((path, derivedPt path), fs) := by
  unfold process_audio_file
  rw [if_pos h]

lemma process_audio_file_bad (load : String → Option (Wave × ℕ))
    (resample : ℕ → ℕ → List ℚ → List ℚ) (sr : ℕ) (fs : FS) (path : String)
    (h1 : fs (derivedPt path) = none) (h2 : load path = none) :
    process_audio_file load resample sr fs path = ((path, "bad"), fs) := by
  unfold process_audio_file
  rw [if_neg (by simp [h1]), h2]

lemma process_audio_file_preserves_none (load : String → Option (Wave × ℕ))
    (resample : ℕ → ℕ → List ℚ → List ℚ) (sr : ℕ) (fs : FS) (q p : String)
    (h1 : fs (derivedPt p) = none)
    (hne : derivedPt q = derivedPt p → load q = none) :
    (process_audio_file load resample sr fs q).2 (derivedPt p) = none := by
  unfold process_audio_file
  dsimp only
  split_ifs with h
  · exact h1
  · cases hl : load q with
    | none => exact h1
    | some w =>
      obtain ⟨w, rate⟩ := w
      by_cases he : derivedPt q = derivedPt p
      · exact absurd hl (by simp [hne he])
      · simp only []
        rw [if_neg (fun hh => he hh.symm)]
        exact h1

lemma procAll_fst_map (load : String → Option (Wave × ℕ))
    (resample : ℕ → ℕ → List ℚ → List ℚ) (sr : ℕ) :
    ∀ (files : List String) (fs : FS),
      (procAll load resample sr files fs).1.map Prod.fst = files := by
  intro files
  induction files with
  | nil => intro fs; rfl
  | cons q qs ih =>
    intro fs
    simp [procAll, ih, process_audio_file_fst]

lemma procAll_length (load : String → Option (Wave × ℕ))
    (resample : ℕ → ℕ → List ℚ → List ℚ) (sr : ℕ) (files : List String) (fs : FS) :
    (procAll load resample sr files fs).1.length = files.length := by
  have := congrArg List.length (procAll_fst_map load resample sr files fs)
  simpa using this

lemma procAll_cached (load : String → Option (Wave × ℕ))
    (resample : ℕ → ℕ → List ℚ → List ℚ) (sr : ℕ) :
    ∀ (files : List String) (fs : FS),
      (∀ q ∈ files, (fs (derivedPt q)).isSome = true) →
      procAll load resample sr files fs =
        (files.map (fun q => (q, derivedPt q)), fs) := by
  intro files
  induction files with
  | nil => intro fs _; rfl
  | cons q qs ih =>
    intro fs h
    have hq := process_audio_file_cached load resample sr fs q (h q (by simp))
    simp [procAll, hq, ih fs (fun r hr => h r (by simp [hr]))]

lemma procAll_bad (load : String → Option (Wave × ℕ))
    (resample : ℕ → ℕ → List ℚ → List ℚ) (sr : ℕ) (p : String)
    (hload : load p = none) :
    ∀ (files : List String) (fs : FS),
      fs (derivedPt p) = none →
      (∀ q ∈ files, derivedPt q = derivedPt p → q = p) →
      ∀ pr ∈ (procAll load resample sr files fs).1, pr.1 = p → pr.2 = "bad" := by
  intro files
  induction files with
  | nil => intro fs _ _ pr hpr; simp [procAll] at hpr
  | cons q qs ih =>
    intro fs h1 h2 pr hpr hfst
    simp only [procAll, List.mem_cons] at hpr
    rcases hpr with rfl | hpr
    · have hq : q = p := by
        rw [← process_audio_file_fst load resample sr fs q, hfst]
      subst hq
      rw [process_audio_file_bad load resample sr fs q h1 hload]
    · refine ih (process_audio_file load resample sr fs q).2 ?_
        (fun r hr h => h2 r (by simp [hr]) h) pr hpr hfst
      refine process_audio_file_preserves_none load resample sr fs q p h1 ?_
      intro he
      have := h2 q (by simp) he
      subst this
      exact hload

lemma serialize_isOk_iff (exists_ : String → Bool) (load : String → Option (Wave × ℕ))
    (resample : ℕ → ℕ → List ℚ → List ℚ) (sr : ℕ) (rows : List Row) (fs : FS) :
    (serialize_data exists_ load resample sr rows fs).isOk = false ↔ rows = [] := by
  unfold serialize_data
  rw [verify_audio_eq]
  dsimp only
  split_ifs with h
  · simp only [Except.isOk, Except.toBool]
    constructor
    · intro _
      rw [procAll_length] at h
      have hf := List.length_eq_zero.mp h
      have := (uniqueFirst_eq_nil _).mp hf
      exact List.map_eq_nil_iff.mp this
    · intro _; trivial
  · simp only [Except.isOk, Except.toBool]
    constructor
    · intro hfalse; exact absurd hfalse (by simp)
    · rintro rfl
      exfalso
      exact h (by rw [procAll_length]; simp [uniqueFirst])

lemma serialize_outRows (exists_ : String → Bool) (load : String → Option (Wave × ℕ))
    (resample : ℕ → ℕ → List ℚ → List ℚ) (sr : ℕ) (rows : List Row) (fs : FS)
    (hne : rows ≠ []) :
    outRows (serialize_data exists_ load resample sr rows fs) =
      some (rows.filterMap (fun r =>
        ((((procAll load resample sr (uniqueFirst (rows.map Row.file)) fs).1.filter
            (fun g => g.2 != "bad")).find? (fun g => g.1 == r.file)).map
          (fun g => SRow.mk r g.2)))) := by
  unfold serialize_data
  rw [verify_audio_eq]
  dsimp only
  rw [if_neg ?hcond]
  case hcond =>
    rw [procAll_length]
    intro h0
    exact hne (List.map_eq_nil_iff.mp ((uniqueFirst_eq_nil _).mp (List.length_eq_zero.mp h0)))
  rfl

lemma getItem_eval (cfg : Config) (mel : List ℚ → List (List ℚ))
    (cti : List (String × ℕ)) (nc : ℕ) (samples : List SRow) (fs : FS)
    (d : Draws) (i : ℕ) :
    getItem cfg mel cti nc samples fs false d i =
      match get_clip cfg cti nc samples fs i with
      | .error e => .error e
      | .ok ((a, t), fs1) => .ok ((renderImage mel a, t), fs1) := by
  cases h : get_clip cfg cti nc samples fs i with
  | error e => simp [getItem, h]; rfl
  | ok v =>
    obtain ⟨⟨a, t⟩, fs1⟩ := v
    simp [getItem, h, renderImage]
    rfl

/-! ### Claim theorems -/

/-- C1: every clip successfully extracted and cached by
`extract_clip_and_cache` (and hence returned by `get_clip` on a clip-cache
miss) has length exactly `num_samples = sample_rate * max_time`, for every
row and every offset/duration combination, and the copy written to the clip
cache equals the returned clip. -/
theorem clip_length_exact (cfg : Config) (samples : List SRow) (fs : FS)
    (index : ℕ) (cache : String) (clip : List ℚ)
    (cti : List (String × ℕ)) (nc : ℕ)
    (h : okClip (extract_clip_and_cache cfg samples fs index cache) = some clip) :
    clip.length = numSamples cfg ∧
    cacheAfter (extract_clip_and_cache cfg samples fs index cache) cache = some clip ∧
    (∀ s a t, samples[index]? = some s → fs (cachePathFor cfg s) = none →
      okItem (get_clip cfg cti nc samples fs index) = some (a, t) →
      a.length = numSamples cfg) := by
  obtain ⟨clip2, fs1, hx⟩ :
      ∃ c f, extract_clip_and_cache cfg samples fs index cache = .ok (c, f) := by
    cases hx : extract_clip_and_cache cfg samples fs index cache with
    | error e => rw [hx] at h; simp [okClip] at h
    | ok v => obtain ⟨c, f⟩ := v; exact ⟨c, f, rfl⟩
  have hclip : clip2 = clip := by rw [hx] at h; simpa [okClip] using h
  subst hclip
  obtain ⟨h1, h2⟩ := extract_ok cfg samples fs index cache clip2 fs1 hx
  refine ⟨h1, ?_, ?_⟩
  · rw [hx]; simpa [cacheAfter] using h2
  · intro s a t hs hmiss hok
    unfold get_clip at hok
    simp only [hs] at hok
    cases hl : List.lookup s.orig.species cti with
    | none => simp only [hl] at hok; simp [okItem] at hok
    | some idx =>
      simp only [hl, hmiss] at hok
      cases hx2 : extract_clip_and_cache cfg samples fs index (cachePathFor cfg s) with
      | error e => simp only [hx2] at hok; simp [okItem] at hok
      | ok v =>
        obtain ⟨c2, f2⟩ := v
        simp only [hx2, okItem] at hok
        have ha : c2 = a := by
          have := hok
          simp at this
          exact this.1
        subst ha
        exact (extract_ok cfg samples fs index (cachePathFor cfg s) c2 f2 hx2).1

/-- C1 witness: a concrete successful extraction (one-sample canonical
waveform, target length 2) returns a clip of length exactly `num_samples`
and stores it at the cache key. -/
theorem clip_length_exact_witness :
    okClip (extract_clip_and_cache ⟨1, 2, "c", 0, 0, 0, 0, 0, 0⟩
        [⟨⟨"a.pt", "sp", 0, 3⟩, "a.pt"⟩]
        (fun p => if p = "a.pt" then some [5] else none) 0 "x") = some [5, 0] ∧
    ([5, 0] : List ℚ).length = numSamples ⟨1, 2, "c", 0, 0, 0, 0, 0, 0⟩ ∧
    cacheAfter (extract_clip_and_cache ⟨1, 2, "c", 0, 0, 0, 0, 0, 0⟩
        [⟨⟨"a.pt", "sp", 0, 3⟩, "a.pt"⟩]
        (fun p => if p = "a.pt" then some [5] else none) 0 "x") "x" = some [5, 0] := by
  have h : okClip (extract_clip_and_cache ⟨1, 2, "c", 0, 0, 0, 0, 0, 0⟩
      [⟨⟨"a.pt", "sp", 0, 3⟩, "a.pt"⟩]
      (fun p => if p = "a.pt" then some [5] else none) 0 "x") = some [5, 0] := by
    norm_num [extract_clip_and_cache, okClip, extract_clip, crop_audio, pad_audio,
      pyInt, numSamples, List.replicate]
  exact ⟨h,
    (clip_length_exact _ _ _ _ _ _ [] 0 h).1,
    (clip_length_exact _ _ _ _ _ _ [] 0 h).2.1⟩

/-- C2: the unmixed label built by `get_clip` is a one-hot vector of
dimension `num_classes` with non-negative entries summing to 1, and for every
coefficient draw `u` in `[0,1)` the mixup combination
`target * alpha + target_2 * (1 - alpha)` with `alpha = u * 0.3 + 0.1` again
has non-negative entries summing to 1. -/
theorem mixup_label_invariant (n i j : ℕ) (u : ℚ) (hi : i < n) (hj : j < n)
    (hu0 : 0 ≤ u) (hu1 : u < 1) :
    ((oneHot i n).length = n ∧ (∀ x ∈ oneHot i n, 0 ≤ x) ∧ (oneHot i n).sum = 1) ∧
    (1 / 10 ≤ alphaOf u ∧ alphaOf u < 4 / 10) ∧
    (∀ x ∈ mixVec (alphaOf u) (oneHot i n) (oneHot j n), 0 ≤ x) ∧
    (mixVec (alphaOf u) (oneHot i n) (oneHot j n)).sum = 1 := by
  have ha0 : 0 ≤ alphaOf u := by unfold alphaOf; nlinarith
  have ha1 : alphaOf u ≤ 1 := by unfold alphaOf; nlinarith
  refine ⟨⟨oneHot_length i n, oneHot_nonneg i n, oneHot_sum i n hi⟩, ⟨?_, ?_⟩, ?_, ?_⟩
  · unfold alphaOf; nlinarith
  · unfold alphaOf; nlinarith
  · intro x hx
    obtain ⟨a, b, ha, hb, rfl⟩ := mixVec_mem (alphaOf u) _ _ x hx
    have hna := oneHot_nonneg i n a ha
    have hnb := oneHot_nonneg j n b hb
    have : 0 ≤ a * alphaOf u := mul_nonneg hna ha0
    have : 0 ≤ b * (1 - alphaOf u) := mul_nonneg hnb (by linarith)
    linarith
  · rw [mixVec_sum (alphaOf u) _ _ (by rw [oneHot_length, oneHot_length]),
      oneHot_sum i n hi, oneHot_sum j n hj]
    ring

/-- C2 witness: the invariant holds concretely for two classes, class indices
0 and 1, and the coefficient draw u = 1/2 (alpha = 1/4). -/
theorem mixup_label_invariant_witness :
    (0 < 2 ∧ 1 < 2 ∧ (0 : ℚ) ≤ 1/2 ∧ (1/2 : ℚ) < 1) ∧
    ((oneHot 0 2).length = 2 ∧ (∀ x ∈ oneHot 0 2, 0 ≤ x) ∧ (oneHot 0 2).sum = 1) ∧
    (1 / 10 ≤ alphaOf (1/2) ∧ alphaOf (1/2) < 4 / 10) ∧
    (∀ x ∈ mixVec (alphaOf (1/2)) (oneHot 0 2) (oneHot 1 2), 0 ≤ x) ∧
    (mixVec (alphaOf (1/2)) (oneHot 0 2) (oneHot 1 2)).sum = 1 :=
  ⟨⟨by norm_num, by norm_num, by norm_num, by norm_num⟩,
    mixup_label_invariant 2 0 1 (1/2) (by norm_num) (by norm_num)
      (by norm_num) (by norm_num)⟩

/-- C4 counterexample: with a canonical waveform of 5 samples, offset 2 and a
duration of 10 sample frames, the requested window `[2:12]` is non-empty,
yet `extract_clip` performs no slicing at all (the guard compares the whole
length against `num_frames`), so the leading cached sample is the canonical
waveform's sample 0, not its sample at the offset. -/
theorem extract_clip_ignores_offset_cx :
    extract_clip 5 [10, 20, 30, 40, 50] 2 10 = [10, 20, 30, 40, 50] ∧
    (([10, 20, 30, 40, 50] : List ℚ).drop 2).take 10 ≠ [] ∧
    (extract_clip 5 [10, 20, 30, 40, 50] 2 10)[0]? = some 10 ∧
    ([10, 20, 30, 40, 50] : List ℚ)[2]? = some 30 := by
  exact ⟨by norm_num [extract_clip, crop_audio, pad_audio], by simp,
    by norm_num [extract_clip, crop_audio, pad_audio], by norm_num⟩

/-- C4 (amended): whenever the canonical waveform is strictly longer than
`duration_samples` (the condition the code actually tests before slicing),
the extracted clip's entries at positions inside the window agree with the
canonical waveform starting at `offset_samples`. -/
theorem extract_clip_offset_window (ns : ℕ) (audio : List ℚ) (fo nf j : ℕ)
    (h1 : nf < audio.length) (h2 : j < nf) (h3 : fo + j < audio.length)
    (h4 : j < ns) :
    (extract_clip ns audio fo nf)[j]? = audio[fo + j]? :=
  extract_clip_getElem ns audio fo nf j h1 h2 h3 h4

/-- C4 witness: concrete instance of the amended slicing property. -/
theorem extract_clip_offset_window_witness :
    (2 < 5 ∧ 0 < 2 ∧ 1 + 0 < 5 ∧ 0 < 3) ∧
    (extract_clip 3 [1, 2, 3, 4, 5] 1 2)[0]? = ([1, 2, 3, 4, 5] : List ℚ)[1 + 0]? :=
  ⟨⟨by norm_num, by norm_num, by norm_num, by norm_num⟩,
    extract_clip_offset_window 3 [1, 2, 3, 4, 5] 1 2 0
      (by norm_num) (by norm_num) (by norm_num) (by norm_num)⟩

/-- C10: the time-shift step as written — `torch.roll(audio, shift, dims=1)`
— always raises a dimension-out-of-range error on the one-dimensional clip
returned by `get_clip`; its error branch is not merely reachable but taken
whenever the gate fires, so no circular roll ever happens. -/
theorem time_shift_always_errors (audio : List ℚ) (shift : ℕ) :
    timeShift audio shift = .error "Dimension out of range" := by
  simp [timeShift, torchRoll]

/-- C3 counterexample: a one-row table whose file exists but whose audio
fails to load ("bad") passes the `num_files == 0` check (taken before the
"bad" filter), so `serialize_data` returns an EMPTY dataset without raising
any error. -/
theorem serialize_empty_without_error_cx :
    outRows (serialize_data (fun _ => true) (fun _ => none) (fun _ _ a => a) 16000
      [⟨"a.wav", "sp", 0, 1⟩] (fun _ => none)) = some [] ∧
    (serialize_data (fun _ => true) (fun _ => none) (fun _ _ a => a) 16000
      [⟨"a.wav", "sp", 0, 1⟩] (fun _ => none)).isOk = true := by
  constructor <;> decide

/-- C3 (amended): `serialize_data` raises its fatal error exactly when the
sample table itself is empty — the `num_files == 0` check counts distinct
references BEFORE dropping the ones that converted to "bad", so a table in
which every reference converts to "bad" yields an empty dataset without
raising. -/
theorem serialize_raises_iff_empty (exists_ : String → Bool)
    (load : String → Option (Wave × ℕ)) (resample : ℕ → ℕ → List ℚ → List ℚ)
    (sr : ℕ) (rows : List Row) (fs : FS) :
    (serialize_data exists_ load resample sr rows fs).isOk = false ↔ rows = [] :=
  serialize_isOk_iff exists_ load resample sr rows fs

/-- C5: `verify_audio` drops NOTHING — `missing_files` is built from the
boolean values of the existence series (`test_df[~test_df].unique()` is an
array of `False`s, not of paths), a string is never value-equal to a
boolean, so the `isin` mask is all-false and every row survives; moreover the
"ignoring N missing files" count is at most 1 regardless of how many files
are missing. -/
theorem verify_audio_drops_nothing (exists_ : String → Bool) (rows : List Row) :
    verify_audio exists_ rows = rows ∧ verifyLoggedCount exists_ rows ≤ 1 := by
  refine ⟨verify_audio_eq exists_ rows, ?_⟩
  unfold verifyLoggedCount
  have key : ∀ L : List Bool, L.Nodup → (∀ b ∈ L, b = false) → L.length ≤ 1 := by
    intro L hnd hmem
    cases L with
    | nil => simp
    | cons b1 tl =>
      cases tl with
      | nil => simp
      | cons b2 rest =>
        exfalso
        have h1 : b1 = false := hmem b1 (by simp)
        have h2 : b2 = false := hmem b2 (by simp)
        have : b1 ∉ b2 :: rest := (List.nodup_cons.mp hnd).1
        exact this (by simp [h1, h2])
  refine key _ (uniqueFirst_nodup _) ?_
  intro b hb
  have := (uniqueFirst_mem _ b).mp hb
  have := List.mem_filter.mp this
  simpa using this.2

/-- C6: when the derived `.pt` path of a reference is already present,
`process_audio_file` returns that key immediately and leaves the cache state
untouched; its result does not depend on the loader or resampler at all, and
a whole bulk-caching pass over an already-populated cache returns each
derived key with the cache state byte-identical. -/
theorem process_audio_file_idempotent (load load2 : String → Option (Wave × ℕ))
    (resample resample2 : ℕ → ℕ → List ℚ → List ℚ) (sr : ℕ) (fs : FS)
    (p : String) (files : List String)
    (hp : (fs (derivedPt p)).isSome = true)
    (hall : ∀ q ∈ files, (fs (derivedPt q)).isSome = true) :
    process_audio_file load resample sr fs p = ((p, derivedPt p), fs) ∧
    process_audio_file load resample sr fs p =
      process_audio_file load2 resample2 sr fs p ∧
    procAll load resample sr files fs =
      (files.map (fun q => (q, derivedPt q)), fs) := by
  refine ⟨process_audio_file_cached load resample sr fs p hp, ?_, ?_⟩
  · rw [process_audio_file_cached load resample sr fs p hp,
      process_audio_file_cached load2 resample2 sr fs p hp]
  · exact procAll_cached load resample sr files fs hall

/-- C6 witness: with `a.pt` already in the cache, processing `a.wav` is a
pure cache hit and a bulk pass over `[a.wav]` changes nothing. -/
theorem process_audio_file_idempotent_witness :
    (((fun q => if q = "a.pt" then some [] else none : FS) (derivedPt "a.wav")).isSome = true) ∧
    process_audio_file (fun _ => none) (fun _ _ a => a) 16000
      (fun q => if q = "a.pt" then some [] else none) "a.wav" =
      (("a.wav", derivedPt "a.wav"), fun q => if q = "a.pt" then some [] else none) ∧
    procAll (fun _ => none) (fun _ _ a => a) 16000 ["a.wav"]
      (fun q => if q = "a.pt" then some [] else none) =
      (["a.wav"].map (fun q => (q, derivedPt q)),
        fun q => if q = "a.pt" then some [] else none) := by
  have hp : (((fun q => if q = "a.pt" then some [] else none : FS)
      (derivedPt "a.wav")).isSome = true) := by decide
  have hall : ∀ q ∈ ["a.wav"],
      (((fun q => if q = "a.pt" then some [] else none : FS) (derivedPt q)).isSome = true) := by
    decide
  exact ⟨hp,
    (process_audio_file_idempotent (fun _ => none) (fun _ => none) (fun _ _ a => a)
      (fun _ _ a => a) 16000 _ "a.wav" ["a.wav"] hp hall).1,
    (process_audio_file_idempotent (fun _ => none) (fun _ => none) (fun _ _ a => a)
      (fun _ _ a => a) 16000 _ "a.wav" ["a.wav"] hp hall).2.2⟩

/-- C7: a reference that is not cached and whose load fails is mapped to the
sentinel `("bad")` with the cache state unchanged and no exception;
`serialize_data` still completes (`isOk`), and no surviving sample row
carries that reference. -/
theorem bad_file_excluded (exists_ : String → Bool)
    (load : String → Option (Wave × ℕ)) (resample : ℕ → ℕ → List ℚ → List ℚ)
    (sr : ℕ) (rows : List Row) (fs : FS) (p : String)
    (hload : load p = none) (hfs : fs (derivedPt p) = none)
    (hnc : ∀ q ∈ uniqueFirst (rows.map Row.file), derivedPt q = derivedPt p → q = p)
    (hne : rows ≠ []) :
    process_audio_file load resample sr fs p = ((p, "bad"), fs) ∧
    (serialize_data exists_ load resample sr rows fs).isOk = true ∧
    (∀ out, outRows (serialize_data exists_ load resample sr rows fs) = some out →
      ∀ s ∈ out, s.orig.file ≠ p) := by
  refine ⟨process_audio_file_bad load resample sr fs p hfs hload, ?_, ?_⟩
  · cases hok : (serialize_data exists_ load resample sr rows fs).isOk with
    | true => rfl
    | false => exact absurd ((serialize_isOk_iff _ _ _ _ _ _).mp hok) hne
  · intro out hout s hs hsp
    rw [serialize_outRows exists_ load resample sr rows fs hne] at hout
    have hxe := Option.some.inj hout
    subst hxe
    obtain ⟨r, _, hr⟩ := List.mem_filterMap.mp hs
    cases hfind : ((procAll load resample sr (uniqueFirst (rows.map Row.file)) fs).1.filter
        (fun g => g.2 != "bad")).find? (fun g => g.1 == r.file) with
    | none => rw [hfind] at hr; simp at hr
    | some g =>
      rw [hfind] at hr
      have hr2 : ({ orig := r, file := g.2 } : SRow) = s := by simpa using hr
      have hsf : s.orig = r ∧ s.file = g.2 := by rw [← hr2]; exact ⟨rfl, rfl⟩
      have hgood := List.mem_of_find?_eq_some hfind
      have hval := List.find?_some hfind
      have hmem := List.mem_filter.mp hgood
      have hg1 : g.1 = r.file := by simpa using hval
      have hrp : r.file = p := by rw [hsf.1] at hsp; exact hsp
      have hbad : g.2 = "bad" :=
        procAll_bad load resample sr p hload _ fs hfs hnc g hmem.1 (by rw [hg1, hrp])
      have := hmem.2
      rw [hbad] at this
      simp at this

/-- C7 witness: a single uncached reference whose load fails is marked "bad"
with the cache untouched, and serialization still completes. -/
theorem bad_file_excluded_witness :
    ((fun _ : String => (none : Option (Wave × ℕ))) "x.wav" = none ∧
      (fun _ : String => (none : Option (List ℚ))) (derivedPt "x.wav") = none ∧
      [(⟨"x.wav", "sp", 0, 1⟩ : Row)] ≠ []) ∧
    process_audio_file (fun _ => none) (fun _ _ a => a) 1 (fun _ => none) "x.wav" =
      (("x.wav", "bad"), fun _ => none) ∧
    (serialize_data (fun _ => true) (fun _ => none) (fun _ _ a => a) 1
      [⟨"x.wav", "sp", 0, 1⟩] (fun _ => none)).isOk = true := by
  have hnc : ∀ q ∈ uniqueFirst ([(⟨"x.wav", "sp", 0, 1⟩ : Row)].map Row.file),
      derivedPt q = derivedPt "x.wav" → q = "x.wav" := by decide
  have h := bad_file_excluded (fun _ => true) (fun _ => none) (fun _ _ a => a) 1
    [⟨"x.wav", "sp", 0, 1⟩] (fun _ => none) "x.wav" rfl rfl hnc (by decide)
  exact ⟨⟨rfl, rfl, by decide⟩, h.1, h.2.1⟩

/-- C8: the class index built from the training rows is a bijection between
the distinct species labels and the contiguous indices `0..num_classes-1`
(`num_classes` equals the number of distinct species), and a
validation dataset constructed with that index reuses it verbatim. -/
theorem class_index_bijection (trainRows validRows : List Row) :
    (datasetClasses none trainRows).1.Nodup ∧
    (∀ c, c ∈ (datasetClasses none trainRows).1 ↔ c ∈ trainRows.map Row.species) ∧
    (datasetClasses none trainRows).1.length =
      (trainRows.map Row.species).toFinset.card ∧
    (datasetClasses none trainRows).2.map Prod.fst = (datasetClasses none trainRows).1 ∧
    (datasetClasses none trainRows).2.map Prod.snd =
      List.range (datasetClasses none trainRows).1.length ∧
    datasetClasses (some (datasetClasses none trainRows)) validRows =
      datasetClasses none trainRows := by
  have hnd := uniqueFirst_nodup (trainRows.map Row.species)
  have hmem := uniqueFirst_mem (trainRows.map Row.species)
  refine ⟨hnd, hmem, ?_, ?_, ?_, rfl⟩
  · have hfin : (uniqueFirst (trainRows.map Row.species)).toFinset =
        (trainRows.map Row.species).toFinset := by
      ext c
      simp [List.mem_toFinset, hmem c]
    rw [← hfin, List.toFinset_card_of_nodup hnd]
    rfl
  · exact List.map_fst_zip _ _ (by simp)
  · exact List.map_snd_zip _ _ (by simp)

/-- C9: with `train = False`, `__getitem__` applies none of the stochastic
transforms — its result does not depend on any of the random draws — and
equals the deterministic render of the fetched clip, so two accesses to the
same index under the same cache state return identical image/label pairs. -/
theorem eval_mode_deterministic (cfg : Config) (mel : List ℚ → List (List ℚ))
    (cti : List (String × ℕ)) (nc : ℕ) (samples : List SRow) (fs : FS)
    (i : ℕ) (d d2 : Draws) :
    getItem cfg mel cti nc samples fs false d i =
      getItem cfg mel cti nc samples fs false d2 i ∧
    getItem cfg mel cti nc samples fs false d i =
      (match get_clip cfg cti nc samples fs i with
       | .error e => .error e
       | .ok ((a, t), fs1) => .ok ((renderImage mel a, t), fs1)) :=
  ⟨by rw [getItem_eval, getItem_eval], getItem_eval cfg mel cti nc samples fs d i⟩
